import Mathlib

/-!
Verification of the MIDI-file encoder core of `src/master.py`:
the variable-length-quantity (VLQ) codec `encode_var_len` and the sort,
tick-delta conversion and chunk assembly performed by `write_midi_file`.

Modelling conventions:
* Python ints are `Int` (or `Nat` where the source value is provably
  non-negative); Python floats (timestamps) are modelled as exact rationals
  `ℚ`; Python's `round` (round-half-to-even) is `pyround` on `ℚ`.
* Python operations that raise on out-of-range values (`struct.pack` with
  the `I` and `H` formats, `bytes` applied to a list of ints) are modelled
  in `Option`, with `none` for the raising executions.
* `events.sort(key=lambda x: x[0])` is Python's stable in-place sort by
  timestamp; it is modelled by the stable insertion sort `sortEvents`, and
  its mutation of the caller's list by `write_midi_file_events_after`.
* `write_midi_file` takes a filename only to open the output file; the
  model drops it and returns the byte sequence that gets written.
-/

/-- An event as handed to `write_midi_file` (src/master.py line 34): a
`(timestamp, [status, data1, data2])` pair, the timestamp in seconds since
session start modelled as an exact rational. -/
abbrev Ev : Type := ℚ × Nat × Nat × Nat

/-- The `while n > 127` loop of `encode_var_len` (src/master.py lines 23-25):
as long as the current value exceeds 127, shift it right by 7 and prepend
`(n & 0x7F) | 0x80` to the byte list.  The loop body only ever runs on
values greater than 127, hence on naturals. -/
def evl_loop (n : Nat) (acc : List Nat) : List Nat :=
  if 127 < n then
    evl_loop (n >>> 7) ((((n >>> 7) &&& 127) ||| 128) :: acc)
  else
    acc
termination_by n
decreasing_by
  rw [Nat.shiftRight_eq_div_pow]
  exact Nat.div_lt_self (by omega) (by norm_num)

/-- Embedding of `encode_var_len` (src/master.py lines 17-26).
`bytes_list` starts as `[n & 0x7F]`; on an arbitrary Python int, `& 0x7F`
equals the Euclidean mod (`(n % 128).toNat`, always in `[0,128)`).  The
`while` loop never runs when `n ≤ 127` — in particular for negative `n`,
where `n.toNat = 0` — so running it on `n.toNat` is exact. -/
def encode_var_len (n : Int) : List Nat :=
  evl_loop n.toNat [(n % 128).toNat]

/-- Python 3's `round` on the exact value of its argument: round half to
even.  Used for `int(round(delta_time * ticks_per_second))` at
src/master.py line 64 (Python's `int` of an integral `round` result is the
identity).  `Rat.floor` is used rather than `Int.floor` so that the
definition evaluates inside the kernel; the two agree (`ratFloor_eq`). -/
def pyround (x : ℚ) : Int :=
  if x - x.floor < 1 / 2 then x.floor
  else if 1 / 2 < x - x.floor then x.floor + 1
  else if x.floor % 2 = 0 then x.floor else x.floor + 1

/-- Stable insertion of an event into a timestamp-sorted list: the new
event goes in front of the first event whose timestamp is not smaller.
Building block of `sortEvents`. -/
def insertEv (x : Ev) : List Ev → List Ev
  | [] => [x]
  | y :: l => if x.1 ≤ y.1 then x :: y :: l else y :: insertEv x l

/-- Model of `events.sort(key=lambda x: x[0])` (src/master.py line 41):
Python's list sort is a stable ascending sort by the given key, here the
timestamp.  Stable insertion sort has exactly that input/output behaviour. -/
def sortEvents : List Ev → List Ev
  | [] => []
  | x :: l => insertEv x (sortEvents l)

/-- The state of the caller's `events` list after `write_midi_file`
returns: `list.sort` sorts in place, so the caller's list holds the sorted
order afterwards. -/
def write_midi_file_events_after (events : List Ev) : List Ev :=
  sortEvents events

/-- The sequence of `ticks` values computed by the event loop of
`write_midi_file` (src/master.py lines 59-64): for each event in order,
`int(round((timestamp - last_time) * ticks_per_second))`, with `last_time`
starting at `0.0` and updated to the event's timestamp. -/
def tickDeltas (tps : ℚ) : ℚ → List Ev → List Int
  | _, [] => []
  | last_time, e :: rest =>
      pyround ((e.1 - last_time) * tps) :: tickDeltas tps e.1 rest

/-- Big-endian bytes of a 32-bit value, as laid out by `struct.pack(">I", x)`
for an in-range argument. -/
def pack4 (x : Nat) : List Nat :=
  [x >>> 24 % 256, x >>> 16 % 256, x >>> 8 % 256, x % 256]

/-- Big-endian bytes of a 16-bit value, as laid out by `struct.pack(">H", x)`
for an in-range argument. -/
def pack2 (x : Nat) : List Nat :=
  [x >>> 8 % 256, x % 256]

/-- Model of `struct.pack(">I", x)` on a natural number: 4 big-endian
bytes, raising (`none`) when the value does not fit in 32 bits. -/
def pack_u32 (x : Nat) : Option (List Nat) :=
  if x < 2 ^ 32 then some (pack4 x) else none

/-- Model of `struct.pack(">H", x)` on a natural number: 2 big-endian
bytes, raising (`none`) when the value does not fit in 16 bits. -/
def pack_u16 (x : Nat) : Option (List Nat) :=
  if x < 2 ^ 16 then some (pack2 x) else none

/-- Model of `bytes(data)` for the 3-element event data list
(src/master.py line 69): raises (`none`) unless each entry is a byte. -/
def pyBytes3 (d : Nat × Nat × Nat) : Option (List Nat) :=
  if d.1 < 256 ∧ d.2.1 < 256 ∧ d.2.2 < 256 then some [d.1, d.2.1, d.2.2] else none

/-- The event loop of `write_midi_file` (src/master.py lines 59-69),
building the track byte array: for each event, the VLQ encoding of
`int(round((timestamp - last_time) * ticks_per_second))` followed by the
3 event data bytes.  `bytes(var_len)` never raises because every byte
produced by `encode_var_len` is below 256, so only the `bytes(data)`
conversion is fallible. -/
def buildTrack (tps : ℚ) : ℚ → List Ev → Option (List Nat)
  | _, [] => some []
  | last_time, e :: rest => do
      let ev_bytes ← pyBytes3 e.2
      let rest_bytes ← buildTrack tps e.1 rest
      pure (encode_var_len (pyround ((e.1 - last_time) * tps)) ++ (ev_bytes ++ rest_bytes))

/-- Embedding of `write_midi_file` (src/master.py lines 28-85), returning
the byte sequence written to the file.  The source sorts the events in
place, writes the `MThd` chunk (label, length 6, format 0, one track,
division), builds the track data with the event loop, appends the
end-of-track marker `00 FF 2F 00`, and wraps it as an `MTrk` chunk whose
length field is `struct.pack(">I", len(track))`. -/
def write_midi_file (events : List Ev) (division : Nat) : Option (List Nat) := do
  let sorted := sortEvents events
  let hlen ← pack_u32 6
  let f0 ← pack_u16 0
  let f1 ← pack_u16 1
  let fdiv ← pack_u16 division
  let header := [0x4D, 0x54, 0x68, 0x64] ++ hlen ++ f0 ++ f1 ++ fdiv
  let body ← buildTrack ((division * 2 : Nat) : ℚ) 0 sorted
  let track := body ++ [0x00, 0xFF, 0x2F, 0x00]
  let tlen ← pack_u32 track.length
  let track_chunk := [0x4D, 0x54, 0x72, 0x6B] ++ tlen ++ track
  pure (header ++ track_chunk)

/-- Modelled from the spec: the VLQ decoder, which the repository does not
implement.  Following the claim's continuation-bit semantics, each byte
contributes its low 7 bits, big-endian. -/
def vlqDecode (bs : List Nat) : Nat :=
  bs.foldl (fun a b => a * 128 + b % 128) 0

/-- Big-endian value of a list of bytes; used to read back the 4-byte
chunk length field. -/
def beDecode (bs : List Nat) : Nat :=
  bs.foldl (fun a b => a * 256 + b) 0

/-! ### Helper lemmas on the VLQ loop -/

theorem shiftRight7_eq (k : Nat) : k >>> 7 = k / 128 := by
  rw [Nat.shiftRight_eq_div_pow]

theorem shiftRight7_lt (m : Nat) (h : 0 < m) : m >>> 7 < m := by
  rw [shiftRight7_eq]
  exact Nat.div_lt_self h (by norm_num)

theorem and127 (x : Nat) : x &&& 127 = x % 128 := by
  have h := Nat.and_pow_two_sub_one_eq_mod x 7
  norm_num at h
  exact h

theorem lor128 : ∀ y < 128, y ||| 128 = y + 128 := by decide

theorem evl_loop_pos (m : Nat) (acc : List Nat) (h : 127 < m) :
    evl_loop m acc = evl_loop (m >>> 7) ((((m >>> 7) &&& 127) ||| 128) :: acc) := by
  rw [evl_loop]
  simp [h]

theorem evl_loop_neg (m : Nat) (acc : List Nat) (h : ¬ 127 < m) :
    evl_loop m acc = acc := by
  rw [evl_loop]
  simp [h]

theorem evl_loop_append (m : Nat) :
    ∀ acc : List Nat, evl_loop m acc = evl_loop m [] ++ acc := by
  induction m using Nat.strong_induction_on with
  | _ m ih =>
    intro acc
    by_cases h : 127 < m
    · have hlt : m >>> 7 < m := shiftRight7_lt m (by omega)
      rw [evl_loop_pos m acc h, evl_loop_pos m [] h, ih _ hlt, ih _ hlt ([_])]
      simp
    · rw [evl_loop_neg m acc h, evl_loop_neg m [] h]
      simp

theorem evl_loop_decode (m : Nat) :
    (evl_loop m []).foldl (fun a b => a * 128 + b % 128) 0 = m >>> 7 := by
  induction m using Nat.strong_induction_on with
  | _ m ih =>
    by_cases h : 127 < m
    · have hlt : m >>> 7 < m := shiftRight7_lt m (by omega)
      rw [evl_loop_pos m [] h, evl_loop_append, List.foldl_append, ih _ hlt]
      simp only [List.foldl]
      rw [and127, lor128 _ (Nat.mod_lt _ (by omega)), shiftRight7_eq (m >>> 7)]
      omega
    · rw [evl_loop_neg m [] h]
      simp only [List.foldl_nil]
      rw [shiftRight7_eq]
      omega

theorem evl_loop_bytes (m : Nat) :
    ∀ b ∈ evl_loop m [], 128 ≤ b ∧ b < 256 := by
  induction m using Nat.strong_induction_on with
  | _ m ih =>
    intro b hb
    by_cases h : 127 < m
    · rw [evl_loop_pos m [] h, evl_loop_append] at hb
      rcases List.mem_append.mp hb with h1 | h1
      · exact ih _ (shiftRight7_lt m (by omega)) b h1
      · have hb' : b = (((m >>> 7) &&& 127) ||| 128) := by
          simpa using h1
        rw [hb', and127, lor128 _ (Nat.mod_lt _ (by omega))]
        have := Nat.mod_lt (m >>> 7) (y := 128) (by omega)
        omega
    · rw [evl_loop_neg m [] h] at hb
      simp at hb

theorem encode_var_len_natCast (n : Nat) :
    encode_var_len (n : Int) = evl_loop n [] ++ [n % 128] := by
  rw [encode_var_len,
    show ((n : Int)).toNat = n from by omega,
    show (((n : Int)) % 128).toNat = n % 128 from by omega]
  exact evl_loop_append n _

/-! ### Claim C2: VLQ round trip -/

/-- C2: for every non-negative integer n, the bytes returned by
`encode_var_len n` form a well-formed VLQ — every byte except the last has
the 0x80 continuation bit set, the last has it clear — and decoding them
big-endian, 7 bits per byte, reproduces n exactly. -/
theorem c2_roundtrip (n : Nat) :
    vlqDecode (encode_var_len (n : Int)) = n ∧
    (∀ b ∈ (encode_var_len (n : Int)).dropLast, 128 ≤ b ∧ b < 256) ∧
    (encode_var_len (n : Int)).getLast? = some (n % 128) ∧
    n % 128 < 128 := by
  rw [encode_var_len_natCast]
  refine ⟨?_, ?_, ?_, ?_⟩
  · rw [vlqDecode, List.foldl_append, evl_loop_decode]
    simp only [List.foldl]
    rw [shiftRight7_eq]
    omega
  · intro b hb
    rw [List.dropLast_concat] at hb
    exact evl_loop_bytes n b hb
  · exact List.getLast?_concat _
  · omega

/-! ### Claim C3: concrete VLQ encodings -/

/-- C3: `encode_var_len` returns exactly the five byte sequences the spec
lists for inputs 0, 127, 128, 16383 and 16384. -/
theorem c3_values :
    encode_var_len 0 = [0x00] ∧
    encode_var_len 127 = [0x7F] ∧
    encode_var_len 128 = [0x81, 0x00] ∧
    encode_var_len 16383 = [0xFF, 0x7F] ∧
    encode_var_len 16384 = [0x81, 0x80, 0x00] := by
  refine ⟨?_, ?_, ?_, ?_, ?_⟩ <;> simp [encode_var_len, evl_loop] <;> decide

/-! ### Claim C8: negative input to encode_var_len -/

/-- C8 counterexample: on the negative input -1, `encode_var_len` does not
fail; it returns the byte sequence `[0x7F]` (Python's `&` masks the
two's-complement value and the while loop is skipped). -/
theorem c8_counterexample : encode_var_len (-1) = [0x7F] := by
  rw [encode_var_len]
  rw [evl_loop_neg _ _ (by decide)]
  decide

/-- C8 amended: for every negative integer n, `encode_var_len n` returns
normally with the single byte `n mod 128` instead of rejecting the input. -/
theorem c8_amended (n : Int) (h : n < 0) :
    encode_var_len n = [(n % 128).toNat] := by
  rw [encode_var_len, Int.toNat_of_nonpos h.le]
  exact evl_loop_neg 0 _ (by decide)

theorem c8_amended_witness :
    (-5 : Int) < 0 ∧ encode_var_len (-5) = [((-5 : Int) % 128).toNat] :=
  ⟨by decide, c8_amended (-5) (by decide)⟩

/-! ### Helper lemmas on the stable sort and tick deltas -/

theorem insertEv_perm (x : Ev) (l : List Ev) : (insertEv x l).Perm (x :: l) := by
  induction l with
  | nil => simp [insertEv]
  | cons y l ih =>
    rw [insertEv]
    by_cases h : x.1 ≤ y.1
    · rw [if_pos h]
    · rw [if_neg h]
      exact (ih.cons y).trans (List.Perm.swap x y l)

theorem sortEvents_perm (l : List Ev) : (sortEvents l).Perm l := by
  induction l with
  | nil => simp [sortEvents]
  | cons x l ih => exact (insertEv_perm x (sortEvents l)).trans (ih.cons x)

theorem mem_insertEv {b x : Ev} {l : List Ev} (h : b ∈ insertEv x l) :
    b = x ∨ b ∈ l := by
  have h' := (insertEv_perm x l).mem_iff.mp h
  simpa using h'

theorem insertEv_pairwise (x : Ev) (l : List Ev)
    (h : l.Pairwise fun a b => a.1 ≤ b.1) :
    (insertEv x l).Pairwise fun a b => a.1 ≤ b.1 := by
  induction l with
  | nil => simp [insertEv]
  | cons y l ih =>
    rw [insertEv]
    rcases List.pairwise_cons.mp h with ⟨hy, hl⟩
    by_cases hxy : x.1 ≤ y.1
    · rw [if_pos hxy]
      refine List.pairwise_cons.mpr ⟨?_, h⟩
      intro z hz
      rcases List.mem_cons.mp hz with rfl | hz
      · exact hxy
      · exact le_trans hxy (hy z hz)
    · rw [if_neg hxy]
      refine List.pairwise_cons.mpr ⟨?_, ih hl⟩
      intro z hz
      rcases mem_insertEv hz with rfl | hz
      · exact le_of_not_le hxy
      · exact hy z hz

theorem sortEvents_pairwise (l : List Ev) :
    (sortEvents l).Pairwise fun a b => a.1 ≤ b.1 := by
  induction l with
  | nil => simp [sortEvents]
  | cons x l ih => exact insertEv_pairwise x _ ih

theorem ratFloor_eq (x : ℚ) : x.floor = ⌊x⌋ := by
  rw [Rat.floor_def', Rat.floor_def]

theorem pyround_zero : pyround 0 = 0 := by
  rw [pyround, ratFloor_eq]
  norm_num

theorem pyround_nonneg (x : ℚ) (h : 0 ≤ x) : 0 ≤ pyround x := by
  have hf : (0 : Int) ≤ ⌊x⌋ := Int.floor_nonneg.mpr h
  rw [pyround, ratFloor_eq]
  split_ifs <;> omega

theorem tickDeltas_nonneg (tps : ℚ) (htps : 0 ≤ tps) (l : List Ev) :
    ∀ last : ℚ, (l.Pairwise fun a b => a.1 ≤ b.1) →
      (∀ e ∈ l, last ≤ e.1) → ∀ d ∈ tickDeltas tps last l, 0 ≤ d := by
  induction l with
  | nil =>
    intro last _ _ d hd
    simp [tickDeltas] at hd
  | cons e rest ih =>
    intro last hp hl d hd
    rw [tickDeltas] at hd
    rcases List.mem_cons.mp hd with rfl | hd
    · apply pyround_nonneg
      have h1 : last ≤ e.1 := hl e (List.mem_cons_self e rest)
      exact mul_nonneg (by linarith) htps
    · rcases List.pairwise_cons.mp hp with ⟨he, hrest⟩
      exact ih e.1 hrest he d hd

/-! ### Claim C4: normalization invariants -/

/-- C4: for every list of raw events — with timestamps in arbitrary order,
but non-negative, as they are seconds since session start — the sorted
timeline is ascending in timestamp, and every tick delta computed by the
event loop (round of the gap to the previous event, times division*2, with
previous time 0.0 for the first event) is non-negative. -/
theorem c4_normalizer (evs : List Ev) (division : Nat) (hdiv : 0 < division)
    (hnn : ∀ e ∈ evs, (0 : ℚ) ≤ e.1) :
    ((sortEvents evs).Pairwise fun a b => a.1 ≤ b.1) ∧
    ∀ d ∈ tickDeltas ((division * 2 : Nat) : ℚ) 0 (sortEvents evs), 0 ≤ d := by
  refine ⟨sortEvents_pairwise evs, ?_⟩
  apply tickDeltas_nonneg _ (by positivity) _ _ (sortEvents_pairwise evs)
  intro e he
  exact hnn e ((sortEvents_perm evs).mem_iff.mp he)

theorem c4_normalizer_witness :
    (0 < 96 ∧
      ∀ e ∈ ([((1 : ℚ), 144, 64, 127), ((0 : ℚ), 128, 64, 0)] : List Ev), (0 : ℚ) ≤ e.1) ∧
    ((sortEvents [((1 : ℚ), 144, 64, 127), ((0 : ℚ), 128, 64, 0)]).Pairwise fun a b => a.1 ≤ b.1) ∧
    ∀ d ∈ tickDeltas ((96 * 2 : Nat) : ℚ) 0
        (sortEvents [((1 : ℚ), 144, 64, 127), ((0 : ℚ), 128, 64, 0)]), 0 ≤ d :=
  ⟨⟨by decide, by decide⟩, c4_normalizer _ 96 (by decide) (by decide)⟩

/-! ### Claim C5: stability of the sort on equal timestamps -/

theorem filter_time_insertEv (x : Ev) (t : ℚ) (l : List Ev) :
    (insertEv x l).filter (fun e => decide (e.1 = t)) =
      if x.1 = t then x :: l.filter (fun e => decide (e.1 = t))
      else l.filter (fun e => decide (e.1 = t)) := by
  induction l with
  | nil =>
    rw [insertEv]
    by_cases hx : x.1 = t
    · rw [if_pos hx]
      simp [List.filter, hx]
    · rw [if_neg hx]
      simp [List.filter, hx]
  | cons y l ih =>
    rw [insertEv]
    by_cases hxy : x.1 ≤ y.1
    · rw [if_pos hxy]
      by_cases hx : x.1 = t
      · rw [if_pos hx, List.filter_cons_of_pos (by simp [hx])]
      · rw [if_neg hx, List.filter_cons_of_neg (by simp [hx])]
    · rw [if_neg hxy]
      by_cases hy : y.1 = t
      · by_cases hx : x.1 = t
        · exact absurd (le_of_eq (hx.trans hy.symm)) hxy
        · rw [if_neg hx, List.filter_cons_of_pos (by simp [hy]),
            List.filter_cons_of_pos (by simp [hy]), ih, if_neg hx]
      · by_cases hx : x.1 = t
        · rw [if_pos hx, List.filter_cons_of_neg (by simp [hy]),
            List.filter_cons_of_neg (by simp [hy]), ih, if_pos hx]
        · rw [if_neg hx, List.filter_cons_of_neg (by simp [hy]),
            List.filter_cons_of_neg (by simp [hy]), ih, if_neg hx]

theorem filter_time_sortEvents (t : ℚ) (l : List Ev) :
    (sortEvents l).filter (fun e => decide (e.1 = t)) =
      l.filter (fun e => decide (e.1 = t)) := by
  induction l with
  | nil => rfl
  | cons x l ih =>
    rw [sortEvents, filter_time_insertEv]
    by_cases hx : x.1 = t
    · rw [if_pos hx, ih, List.filter_cons_of_pos (by simp [hx])]
    · rw [if_neg hx, ih, List.filter_cons_of_neg (by simp [hx])]

theorem tickDeltas_get (tps : ℚ) (e1 e2 : Ev) (l2 : List Ev) :
    ∀ (l1 : List Ev) (last : ℚ),
      (tickDeltas tps last (l1 ++ e1 :: e2 :: l2))[l1.length + 1]? =
        some (pyround ((e2.1 - e1.1) * tps)) := by
  intro l1
  induction l1 with
  | nil =>
    intro last
    rw [List.nil_append, tickDeltas, tickDeltas]
    simp
  | cons y l1 ih =>
    intro last
    rw [List.cons_append, tickDeltas]
    simp only [List.length_cons]
    rw [List.getElem?_cons_succ]
    exact ih y.1

/-- C5: whenever the sorted timeline puts two events with identical
timestamps next to each other, the tick delta computed for the second one
is 0; and the sort is stable: filtering the timeline to the events at any
fixed timestamp returns them in their original arrival order. -/
theorem c5_stable (evs : List Ev) (t : ℚ) (division : Nat)
    (l1 l2 : List Ev) (e1 e2 : Ev)
    (hsplit : sortEvents evs = l1 ++ e1 :: e2 :: l2) (ht : e1.1 = e2.1) :
    ((sortEvents evs).filter (fun e => decide (e.1 = t)) =
      evs.filter (fun e => decide (e.1 = t))) ∧
    (tickDeltas ((division * 2 : Nat) : ℚ) 0 (sortEvents evs))[l1.length + 1]? =
      some 0 := by
  refine ⟨filter_time_sortEvents t evs, ?_⟩
  rw [hsplit, tickDeltas_get]
  have h0 : e2.1 - e1.1 = 0 := by rw [ht]; ring
  rw [h0, zero_mul, pyround_zero]

theorem c5_stable_witness :
    (sortEvents [((1 : ℚ), 144, 60, 100), ((1 : ℚ), 144, 64, 100)] =
        ([] : List Ev) ++ ((1 : ℚ), 144, 60, 100) :: ((1 : ℚ), 144, 64, 100) :: ([] : List Ev) ∧
      ((1 : ℚ), 144, 60, 100).1 = ((1 : ℚ), 144, 64, 100).1) ∧
    ((sortEvents [((1 : ℚ), 144, 60, 100), ((1 : ℚ), 144, 64, 100)]).filter
        (fun e => decide (e.1 = (1 : ℚ))) =
      [((1 : ℚ), 144, 60, 100), ((1 : ℚ), 144, 64, 100)].filter
        (fun e => decide (e.1 = (1 : ℚ)))) ∧
    (tickDeltas ((96 * 2 : Nat) : ℚ) 0
        (sortEvents [((1 : ℚ), 144, 60, 100), ((1 : ℚ), 144, 64, 100)]))[([] : List Ev).length + 1]? =
      some 0 :=
  ⟨⟨by decide, by decide⟩,
    c5_stable [((1 : ℚ), 144, 60, 100), ((1 : ℚ), 144, 64, 100)] 1 96 [] []
      ((1 : ℚ), 144, 60, 100) ((1 : ℚ), 144, 64, 100) (by decide) (by decide)⟩

/-! ### Claim C9: the caller's list is mutated, not left unchanged -/

/-- C9 counterexample: handing `write_midi_file` a list whose events are
out of timestamp order leaves the caller's list reordered — `list.sort`
sorts the caller's list in place — so the list is not unchanged. -/
theorem c9_counterexample :
    write_midi_file_events_after [((1 : ℚ), 144, 64, 127), ((0 : ℚ), 128, 64, 0)] ≠
      [((1 : ℚ), 144, 64, 127), ((0 : ℚ), 128, 64, 0)] := by
  decide

/-- C9 amended: after `write_midi_file` returns, the caller's list holds
exactly the same events, but stably sorted ascending by timestamp rather
than in their original order. -/
theorem c9_amended (evs : List Ev) :
    (write_midi_file_events_after evs).Perm evs ∧
    (write_midi_file_events_after evs).Pairwise fun a b => a.1 ≤ b.1 :=
  ⟨sortEvents_perm evs, sortEvents_pairwise evs⟩

/-! ### Helper lemmas on chunk assembly -/

theorem write_midi_file_some (evs : List Ev) (division : Nat) (out : List Nat)
    (h : write_midi_file evs division = some out) :
    ∃ body : List Nat,
      buildTrack ((division * 2 : Nat) : ℚ) 0 (sortEvents evs) = some body ∧
      division < 2 ^ 16 ∧ body.length + 4 < 2 ^ 32 ∧
      out = ([0x4D, 0x54, 0x68, 0x64] ++ pack4 6 ++ pack2 0 ++ pack2 1 ++ pack2 division)
        ++ ([0x4D, 0x54, 0x72, 0x6B] ++ pack4 (body.length + 4)
          ++ (body ++ [0x00, 0xFF, 0x2F, 0x00])) := by
  rw [write_midi_file] at h
  simp only [Option.bind_eq_bind, Option.bind_eq_some, Option.pure_def,
    Option.some.injEq] at h
  obtain ⟨hlen, e1, f0, e2, f1, e3, fdiv, e4, body, e5, tlen, e6, hout⟩ := h
  rw [pack_u32, if_pos (by norm_num)] at e1
  rw [pack_u16, if_pos (by norm_num)] at e2
  rw [pack_u16, if_pos (by norm_num)] at e3
  rw [pack_u16] at e4
  rw [pack_u32] at e6
  split_ifs at e4 with hd16
  split_ifs at e6 with hl32
  obtain rfl := Option.some.inj e1
  obtain rfl := Option.some.inj e2
  obtain rfl := Option.some.inj e3
  obtain rfl := Option.some.inj e4
  obtain rfl := Option.some.inj e6
  refine ⟨body, e5, hd16, by simpa using hl32, ?_⟩
  rw [← hout]
  simp [List.append_assoc]

theorem beDecode_pack4 (x : Nat) (hx : x < 2 ^ 32) : beDecode (pack4 x) = x := by
  have e24 : x >>> 24 = x / 16777216 := by
    rw [Nat.shiftRight_eq_div_pow]
  have e16 : x >>> 16 = x / 65536 := by
    rw [Nat.shiftRight_eq_div_pow]
  have e8 : x >>> 8 = x / 256 := by
    rw [Nat.shiftRight_eq_div_pow]
  have hx' : x < 4294967296 := hx
  simp only [beDecode, pack4, List.foldl_cons, List.foldl_nil, e24, e16, e8]
  omega

/-! ### Claim C1: the MTrk length field -/

/-- C1: whenever `write_midi_file` produces output, the output after byte
22 is exactly the serialized track body — the per-event VLQ deltas and
3-byte events produced by the event loop, plus the 4-byte end-of-track
terminator — and the 4-byte big-endian length field at bytes 18-21 (right
after the `"MTrk"` label) decodes to exactly that body's byte length. -/
theorem c1_track_length (evs : List Ev) (division : Nat) (out : List Nat)
    (hdiv : 0 < division) (h : write_midi_file evs division = some out) :
    ∃ body : List Nat,
      buildTrack ((division * 2 : Nat) : ℚ) 0 (sortEvents evs) = some body ∧
      out.drop 22 = body ++ [0x00, 0xFF, 0x2F, 0x00] ∧
      beDecode ((out.drop 18).take 4) = (out.drop 22).length := by
  obtain ⟨body, hbt, hd16, hl32, hout⟩ := write_midi_file_some evs division out h
  have h18 : out.drop 18 = pack4 (body.length + 4) ++ (body ++ [0x00, 0xFF, 0x2F, 0x00]) := by
    rw [hout,
      show ([0x4D, 0x54, 0x68, 0x64] ++ pack4 6 ++ pack2 0 ++ pack2 1 ++ pack2 division)
          ++ ([0x4D, 0x54, 0x72, 0x6B] ++ pack4 (body.length + 4)
            ++ (body ++ [0x00, 0xFF, 0x2F, 0x00]))
        = ([0x4D, 0x54, 0x68, 0x64] ++ pack4 6 ++ pack2 0 ++ pack2 1 ++ pack2 division
            ++ [0x4D, 0x54, 0x72, 0x6B])
          ++ (pack4 (body.length + 4) ++ (body ++ [0x00, 0xFF, 0x2F, 0x00]))
        from by simp [List.append_assoc]]
    exact List.drop_left' (by simp [pack4, pack2])
  have h22 : out.drop 22 = body ++ [0x00, 0xFF, 0x2F, 0x00] := by
    rw [hout,
      show ([0x4D, 0x54, 0x68, 0x64] ++ pack4 6 ++ pack2 0 ++ pack2 1 ++ pack2 division)
          ++ ([0x4D, 0x54, 0x72, 0x6B] ++ pack4 (body.length + 4)
            ++ (body ++ [0x00, 0xFF, 0x2F, 0x00]))
        = ([0x4D, 0x54, 0x68, 0x64] ++ pack4 6 ++ pack2 0 ++ pack2 1 ++ pack2 division
            ++ [0x4D, 0x54, 0x72, 0x6B] ++ pack4 (body.length + 4))
          ++ (body ++ [0x00, 0xFF, 0x2F, 0x00])
        from by simp [List.append_assoc]]
    exact List.drop_left' (by simp [pack4, pack2])
  refine ⟨body, hbt, h22, ?_⟩
  rw [h18, h22, List.take_left' (by simp [pack4]), beDecode_pack4 _ hl32]
  simp

theorem write_empty_96 :
    write_midi_file [] 96 =
      some [0x4D, 0x54, 0x68, 0x64, 0x00, 0x00, 0x00, 0x06, 0x00, 0x00, 0x00, 0x01, 0x00, 0x60,
        0x4D, 0x54, 0x72, 0x6B, 0x00, 0x00, 0x00, 0x04, 0x00, 0xFF, 0x2F, 0x00] := by
  decide

theorem c1_track_length_witness :
    (0 < 96 ∧ write_midi_file [] 96 =
      some [0x4D, 0x54, 0x68, 0x64, 0x00, 0x00, 0x00, 0x06, 0x00, 0x00, 0x00, 0x01, 0x00, 0x60,
        0x4D, 0x54, 0x72, 0x6B, 0x00, 0x00, 0x00, 0x04, 0x00, 0xFF, 0x2F, 0x00]) ∧
    ∃ body : List Nat,
      buildTrack ((96 * 2 : Nat) : ℚ) 0 (sortEvents []) = some body ∧
      ([0x4D, 0x54, 0x68, 0x64, 0x00, 0x00, 0x00, 0x06, 0x00, 0x00, 0x00, 0x01, 0x00, 0x60,
        0x4D, 0x54, 0x72, 0x6B, 0x00, 0x00, 0x00, 0x04, 0x00, 0xFF, 0x2F, 0x00] : List Nat).drop 22 =
          body ++ [0x00, 0xFF, 0x2F, 0x00] ∧
      beDecode ((([0x4D, 0x54, 0x68, 0x64, 0x00, 0x00, 0x00, 0x06, 0x00, 0x00, 0x00, 0x01, 0x00, 0x60,
        0x4D, 0x54, 0x72, 0x6B, 0x00, 0x00, 0x00, 0x04, 0x00, 0xFF, 0x2F, 0x00] : List Nat).drop 18).take 4) =
        (([0x4D, 0x54, 0x68, 0x64, 0x00, 0x00, 0x00, 0x06, 0x00, 0x00, 0x00, 0x01, 0x00, 0x60,
          0x4D, 0x54, 0x72, 0x6B, 0x00, 0x00, 0x00, 0x04, 0x00, 0xFF, 0x2F, 0x00] : List Nat).drop 22).length :=
  ⟨⟨by norm_num, write_empty_96⟩,
    c1_track_length [] 96 _ (by norm_num) write_empty_96⟩

/-! ### Claim C7: overall file layout -/

/-- C7: whenever `write_midi_file` produces output, that output is the
header chunk — the ASCII label `"MThd"`, the big-endian 32-bit constant 6,
and the three big-endian 16-bit fields 0, 1 and division — followed by the
`"MTrk"` chunk, whose body is the event-loop serialization terminated by
the fixed end-of-track sequence: one zero delta byte then `FF 2F 00`. -/
theorem c7_layout (evs : List Ev) (division : Nat) (out : List Nat)
    (h : write_midi_file evs division = some out) :
    ∃ body : List Nat,
      buildTrack ((division * 2 : Nat) : ℚ) 0 (sortEvents evs) = some body ∧
      out = [0x4D, 0x54, 0x68, 0x64] ++ [0x00, 0x00, 0x00, 0x06]
        ++ ([0x00, 0x00] ++ [0x00, 0x01] ++ [division >>> 8 % 256, division % 256])
        ++ ([0x4D, 0x54, 0x72, 0x6B] ++ pack4 (body.length + 4)
          ++ (body ++ [0x00, 0xFF, 0x2F, 0x00])) := by
  obtain ⟨body, hbt, hd16, hl32, hout⟩ := write_midi_file_some evs division out h
  refine ⟨body, hbt, ?_⟩
  rw [hout]
  norm_num [pack4, pack2, List.append_assoc]
  decide

theorem c7_layout_witness :
    write_midi_file [] 96 =
      some [0x4D, 0x54, 0x68, 0x64, 0x00, 0x00, 0x00, 0x06, 0x00, 0x00, 0x00, 0x01, 0x00, 0x60,
        0x4D, 0x54, 0x72, 0x6B, 0x00, 0x00, 0x00, 0x04, 0x00, 0xFF, 0x2F, 0x00] ∧
    ∃ body : List Nat,
      buildTrack ((96 * 2 : Nat) : ℚ) 0 (sortEvents []) = some body ∧
      ([0x4D, 0x54, 0x68, 0x64, 0x00, 0x00, 0x00, 0x06, 0x00, 0x00, 0x00, 0x01, 0x00, 0x60,
        0x4D, 0x54, 0x72, 0x6B, 0x00, 0x00, 0x00, 0x04, 0x00, 0xFF, 0x2F, 0x00] : List Nat) =
        [0x4D, 0x54, 0x68, 0x64] ++ [0x00, 0x00, 0x00, 0x06]
        ++ ([0x00, 0x00] ++ [0x00, 0x01] ++ [(96 : Nat) >>> 8 % 256, (96 : Nat) % 256])
        ++ ([0x4D, 0x54, 0x72, 0x6B] ++ pack4 (body.length + 4)
          ++ (body ++ [0x00, 0xFF, 0x2F, 0x00])) :=
  ⟨write_empty_96, c7_layout [] 96 _ write_empty_96⟩

/-! ### Claim C10: empty event list -/

/-- C10: on an empty events list (with the default division 96)
`write_midi_file` still produces a well-formed 26-byte file: the 14-byte
MThd header chunk, then `"MTrk"`, the big-endian length 4, and the body
`00 FF 2F 00` holding only the end-of-track marker. -/
theorem c10_empty :
    ∃ out : List Nat,
      write_midi_file [] 96 = some out ∧ out.length = 26 ∧
      out = [0x4D, 0x54, 0x68, 0x64, 0x00, 0x00, 0x00, 0x06, 0x00, 0x00, 0x00, 0x01, 0x00, 0x60,
        0x4D, 0x54, 0x72, 0x6B, 0x00, 0x00, 0x00, 0x04, 0x00, 0xFF, 0x2F, 0x00] :=
  ⟨_, write_empty_96, by decide, rfl⟩

/-! ### Claim C6: worked single-event example -/

theorem c6_delta : pyround ((1 / 2 - 0) * ((96 * 2 : Nat) : ℚ)) = 96 := by
  rw [show ((1 / 2 - 0) * ((96 * 2 : Nat) : ℚ)) = (96 : ℚ) from by norm_num,
    pyround, ratFloor_eq]
  norm_num

theorem encode_var_len_96 : encode_var_len 96 = [0x60] := by
  rw [encode_var_len, evl_loop_neg _ _ (by decide)]
  decide

theorem buildTrack_c6 :
    buildTrack ((96 * 2 : Nat) : ℚ) 0 [((1 : ℚ) / 2, 0x90, 0x40, 0x7F)] =
      some [0x60, 0x90, 0x40, 0x7F] := by
  rw [buildTrack,
    show pyBytes3 ((0x90 : Nat), (0x40 : Nat), (0x7F : Nat)) = some [0x90, 0x40, 0x7F]
      from by decide,
    show buildTrack ((96 * 2 : Nat) : ℚ) ((1 : ℚ) / 2) [] = some [] from by rw [buildTrack]]
  simp only [Option.bind_eq_bind, Option.some_bind, Option.pure_def, Option.some.injEq]
  rw [show (((1 : ℚ) / 2, (0x90 : Nat), (0x40 : Nat), (0x7F : Nat)).1 - 0) = (1 / 2 - 0 : ℚ)
      from rfl,
    c6_delta, encode_var_len_96]
  decide

/-- C6: with division 96 and one event at 0.5 seconds carrying bytes
`90 40 7F`, the encoder uses 192 ticks per second, computes a tick delta
of 96, VLQ-encodes it as the single byte `60`, produces the 8-byte track
body `60 90 40 7F 00 FF 2F 00`, and writes the track length field
`00 00 00 08`. -/
theorem c6_example :
    ((96 * 2 : Nat) : ℚ) = 192 ∧
    tickDeltas ((96 * 2 : Nat) : ℚ) 0 [((1 : ℚ) / 2, 0x90, 0x40, 0x7F)] = [96] ∧
    encode_var_len 96 = [0x60] ∧
    write_midi_file [((1 : ℚ) / 2, 0x90, 0x40, 0x7F)] 96 =
      some ([0x4D, 0x54, 0x68, 0x64, 0x00, 0x00, 0x00, 0x06, 0x00, 0x00, 0x00, 0x01, 0x00, 0x60]
        ++ ([0x4D, 0x54, 0x72, 0x6B] ++ [0x00, 0x00, 0x00, 0x08]
          ++ ([0x60, 0x90, 0x40, 0x7F] ++ [0x00, 0xFF, 0x2F, 0x00]))) := by
  refine ⟨by norm_num, ?_, encode_var_len_96, ?_⟩
  · simp only [tickDeltas]
    rw [show (((1 : ℚ) / 2, (0x90 : Nat), (0x40 : Nat), (0x7F : Nat)).1 - 0) = (1 / 2 - 0 : ℚ)
        from rfl,
      c6_delta]
  · rw [write_midi_file,
      show sortEvents [((1 : ℚ) / 2, 0x90, 0x40, 0x7F)] = [((1 : ℚ) / 2, 0x90, 0x40, 0x7F)]
        from rfl,
      show pack_u32 6 = some (pack4 6) from by norm_num [pack_u32],
      show pack_u16 0 = some (pack2 0) from by norm_num [pack_u16],
      show pack_u16 1 = some (pack2 1) from by norm_num [pack_u16],
      show pack_u16 96 = some (pack2 96) from by norm_num [pack_u16]]
    simp only [Option.bind_eq_bind, Option.some_bind]
    rw [buildTrack_c6]
    simp only [Option.some_bind]
    rw [show pack_u32 (([0x60, 0x90, 0x40, 0x7F] ++ [0x00, 0xFF, 0x2F, 0x00] : List Nat).length) =
        some (pack4 8) from by norm_num [pack_u32]]
    simp only [Option.some_bind, Option.pure_def, Option.some.injEq]
    decide
